import Mathlib

/-!
Shallow embedding of the concrete-cuda GPU bootstrap core:

* the device resource manager (`device.cu`): allocation validation, async
  host/device copies, device synchronization;
* the bootstrapping-key module (`bsk` header): frequency-domain key block
  index functions, twiddle (bit-reversal swap table) construction, and the
  bootstrapping-key conversion (packing + rescaling + FFT dispatch);
* the amortized bootstrap kernel `device_bootstrap_amortized` and its host
  launcher `host_bootstrap_amortized` (tier selection over shared memory).

CUDA runtime state (number of devices, free memory, pointer attributes) is
passed explicitly; `double` arithmetic is modelled exactly over `ℚ`; device
buffers are modelled as total functions from indices.
-/

/-! ### Device resource manager (`device.cu`) -/

/-- `cuda_check_valid_malloc` (device.cu, lines 38-52): validates an
allocation request without allocating.  Returns `0` (valid), `-1` (not
enough memory in device), `-2` (gpu index does not exist).  The queried
runtime state (`num_gpus` from `cudaGetDeviceCount`, `free_mem` from
`cudaMemGetInfo`) is an explicit argument. -/
def cuda_check_valid_malloc (size gpu_index num_gpus free_mem : ℕ) : ℤ :=
  if gpu_index ≥ num_gpus then -2
  else if size > free_mem then -1
  else 0

/-- Memory kinds recorded in `cudaPointerAttributes.type`. -/
inductive CudaMemoryType
  | unregistered
  | host
  | device
  | managed
deriving DecidableEq

/-- The fields of `cudaPointerAttributes` read by the copy routines:
the recorded owning device (an `int` in CUDA, possibly negative for
non-device pointers) and the memory kind. -/
structure CudaPointerAttributes where
  device : ℤ
  memType : CudaMemoryType
deriving DecidableEq

/-- `cuda_memcpy_async_to_gpu` (device.cu, lines 59-81): status of the
host-to-device async copy.  `dest_attr` is the attribute record the CUDA
runtime reports for the destination pointer.  Source checks, in order:
zero size (`-3`), gpu index out of range (`-2`), then
`attr.device != gpu_index && attr.type != cudaMemoryTypeDevice` (`-1`,
note the conjunction in the source), else the copy is enqueued (`0`). -/
def cuda_memcpy_async_to_gpu (size gpu_index num_gpus : ℕ)
    (dest_attr : CudaPointerAttributes) : ℤ :=
  if size = 0 then -3
  else if gpu_index ≥ num_gpus then -2
  else if dest_attr.device ≠ (gpu_index : ℤ) ∧ dest_attr.memType ≠ CudaMemoryType.device
    then -1
  else 0

/-- `cuda_memcpy_async_to_cpu` (device.cu, lines 101-123): status of the
device-to-host async copy; same checks as `cuda_memcpy_async_to_gpu`, with
the pointer attributes taken from the source pointer. -/
def cuda_memcpy_async_to_cpu (size gpu_index num_gpus : ℕ)
    (src_attr : CudaPointerAttributes) : ℤ :=
  if size = 0 then -3
  else if gpu_index ≥ num_gpus then -2
  else if src_attr.device ≠ (gpu_index : ℤ) ∧ src_attr.memType ≠ CudaMemoryType.device
    then -1
  else 0

/-- The copy status as the specification claim C6 words it: `InvalidPointer`
(`-1`) whenever the pointer's device attribute does not match the expected
device OR its memory kind is not device memory (a disjunction, where the
source has a conjunction).  Used to exhibit the divergence. -/
def memcpy_async_status_claimed (size gpu_index num_gpus : ℕ)
    (attr : CudaPointerAttributes) : ℤ :=
  if size = 0 then -3
  else if gpu_index ≥ num_gpus then -2
  else if attr.device ≠ (gpu_index : ℤ) ∨ attr.memType ≠ CudaMemoryType.device
    then -1
  else 0

/-- `cuda_synchronize_device` (device.cu, lines 86-94): status only. -/
def cuda_synchronize_device (gpu_index num_gpus : ℕ) : ℤ :=
  if gpu_index ≥ num_gpus then -2 else 0

/-! ### CUDA API call traces (for the asynchrony claim C9)

Each host-side routine is given a companion definition listing, in program
order, the CUDA runtime calls it performs on the path determined by its
(explicit) inputs.  `cudaStreamSynchronize` and `cudaDeviceSynchronize`
are the blocking calls; enqueue-only calls (async copies, kernel
launches) return immediately. -/

/-- CUDA runtime entry points invoked by the embedded host routines. -/
inductive CudaApiCall
  | getDeviceCount
  | getPointerAttributes
  | setDevice
  | mallocDevice
  | memcpyAsyncHtoD
  | memcpyAsyncDtoH
  | kernelLaunch
  | funcSetAttribute
  | funcSetCacheConfig
  | streamSynchronize
  | deviceSynchronize
  | freeDevice
deriving DecidableEq

/-- The calls that block the host thread until device work completes. -/
def isBlockingCall : CudaApiCall → Bool
  | CudaApiCall.streamSynchronize => true
  | CudaApiCall.deviceSynchronize => true
  | _ => false

/-- CUDA API calls performed by `cuda_memcpy_async_to_gpu`, in order, on the
path selected by its inputs (early status returns cut the trace short). -/
def cuda_memcpy_async_to_gpu_trace (size gpu_index num_gpus : ℕ)
    (dest_attr : CudaPointerAttributes) : List CudaApiCall :=
  if size = 0 then []
  else if gpu_index ≥ num_gpus then [CudaApiCall.getDeviceCount]
  else if dest_attr.device ≠ (gpu_index : ℤ) ∧ dest_attr.memType ≠ CudaMemoryType.device
    then [CudaApiCall.getDeviceCount, CudaApiCall.getPointerAttributes]
  else [CudaApiCall.getDeviceCount, CudaApiCall.getPointerAttributes,
        CudaApiCall.setDevice, CudaApiCall.memcpyAsyncHtoD]

/-- CUDA API calls performed by `cuda_memcpy_async_to_cpu`, in order. -/
def cuda_memcpy_async_to_cpu_trace (size gpu_index num_gpus : ℕ)
    (src_attr : CudaPointerAttributes) : List CudaApiCall :=
  if size = 0 then []
  else if gpu_index ≥ num_gpus then [CudaApiCall.getDeviceCount]
  else if src_attr.device ≠ (gpu_index : ℤ) ∧ src_attr.memType ≠ CudaMemoryType.device
    then [CudaApiCall.getDeviceCount, CudaApiCall.getPointerAttributes]
  else [CudaApiCall.getDeviceCount, CudaApiCall.getPointerAttributes,
        CudaApiCall.setDevice, CudaApiCall.memcpyAsyncDtoH]

/-- CUDA API calls performed by `cuda_synchronize_device`, in order. -/
def cuda_synchronize_device_trace (gpu_index num_gpus : ℕ) : List CudaApiCall :=
  if gpu_index ≥ num_gpus then [CudaApiCall.getDeviceCount]
  else [CudaApiCall.getDeviceCount, CudaApiCall.setDevice,
        CudaApiCall.deviceSynchronize]

/-! ### Launch configuration (`host_bootstrap_amortized`, device.cu) -/

/-- `SM_FULL` (device.cu, lines 517-525): full per-sample shared-memory
footprint in bytes.  `sizeof_torus` is 4 or 8, `sizeof(int16_t) = 2`,
`sizeof(double2) = 16`; the nine summands mirror the source. -/
def SM_FULL (sizeof_torus N : ℕ) : ℕ :=
  sizeof_torus * N + sizeof_torus * N + sizeof_torus * N + sizeof_torus * N +
  2 * N + 2 * N + 16 * N / 2 + 16 * N / 2 + 16 * N / 2

/-- `SM_PART` (device.cu, line 527): frequency-domain scratch buffer only. -/
def SM_PART (N : ℕ) : ℕ :=
  16 * N / 2

/-- The three shared-memory execution tiers of the kernel template.  The
source enum names them `FULLSM`, `PARTIALSM` (here `PARTSM`) and `NOSM`. -/
inductive SharedMemDegree
  | FULLSM
  | PARTSM
  | NOSM
deriving DecidableEq

/-- What the launcher decided: the kernel template instantiated, the
dynamic shared memory bytes passed at launch, and the per-sample device
global scratch (`device_memory_size_per_sample` kernel argument, equal to
the per-sample size `cudaMalloc`ed for `d_mem`). -/
structure LaunchChoice where
  smd : SharedMemDegree
  dynamicSharedBytes : ℕ
  devMemPerSample : ℕ
deriving DecidableEq

/-- Tier selection of `host_bootstrap_amortized` (device.cu, lines
555-601): `max_shared_memory < SM_PART` picks `NOSM` with `DM_FULL =
SM_FULL` global scratch per sample; `max_shared_memory < SM_FULL` picks
`PARTIALSM` with `DM_PART = SM_FULL - SM_PART`; otherwise `FULLSM` with no
global scratch. -/
def host_bootstrap_launch_choice (sizeof_torus N max_shared_memory : ℕ) : LaunchChoice :=
  if max_shared_memory < SM_PART N then
    ⟨SharedMemDegree.NOSM, 0, SM_FULL sizeof_torus N⟩
  else if max_shared_memory < SM_FULL sizeof_torus N then
    ⟨SharedMemDegree.PARTSM, SM_PART N, SM_FULL sizeof_torus N - SM_PART N⟩
  else
    ⟨SharedMemDegree.FULLSM, SM_FULL sizeof_torus N, 0⟩

/-- CUDA API calls performed by `host_bootstrap_amortized` (device.cu,
lines 555-606), in order, on the branch its tier selection takes.  Every
branch ends with `cudaStreamSynchronize(*stream)` followed by
`cudaFree(d_mem)` (lines 604-605). -/
def host_bootstrap_amortized_trace (sizeof_torus N max_shared_memory : ℕ) :
    List CudaApiCall :=
  if max_shared_memory < SM_PART N then
    [CudaApiCall.mallocDevice, CudaApiCall.kernelLaunch,
     CudaApiCall.streamSynchronize, CudaApiCall.freeDevice]
  else if max_shared_memory < SM_FULL sizeof_torus N then
    [CudaApiCall.funcSetAttribute, CudaApiCall.funcSetCacheConfig,
     CudaApiCall.mallocDevice, CudaApiCall.kernelLaunch,
     CudaApiCall.streamSynchronize, CudaApiCall.freeDevice]
  else
    [CudaApiCall.funcSetAttribute, CudaApiCall.funcSetCacheConfig,
     CudaApiCall.mallocDevice, CudaApiCall.kernelLaunch,
     CudaApiCall.streamSynchronize, CudaApiCall.freeDevice]

/-! ### Bootstrapping-key block index functions (bsk header, lines 10-31)

These compute indices (the source computes `&ptr[idx]` pointers) into the
flat frequency-domain key buffer of `double2` values.  The arithmetic is
kept exactly as written, including the C left-to-right `* ... / 2`
grouping. -/

/-- `get_start_ith_ggsw`: start of the `i`-th GGSW in the key buffer. -/
def get_start_ith_ggsw (i N glwe_dimension l_gadget : ℕ) : ℕ :=
  i * N / 2 * (glwe_dimension + 1) * (glwe_dimension + 1) * l_gadget

/-- `get_ith_mask_kth_block`: index of the mask block of the `k`-th row at
decomposition level `level` inside the `i`-th GGSW. -/
def get_ith_mask_kth_block (i k level N glwe_dimension l_gadget : ℕ) : ℕ :=
  get_start_ith_ggsw i N glwe_dimension l_gadget +
    level * N / 2 * (glwe_dimension + 1) * (glwe_dimension + 1) +
    k * N / 2 * (glwe_dimension + 1)

/-- `get_ith_body_kth_block`: same as the mask block plus `N / 2`. -/
def get_ith_body_kth_block (i k level N glwe_dimension l_gadget : ℕ) : ℕ :=
  get_start_ith_ggsw i N glwe_dimension l_gadget +
    level * N / 2 * (glwe_dimension + 1) * (glwe_dimension + 1) +
    k * N / 2 * (glwe_dimension + 1) +
    N / 2

/-- `total_polynomials` of `cuda_convert_lwe_bootstrap_key` (bsk header,
lines 72-74): number of degree-`N` polynomials in the key. -/
def totalPolynomials (input_lwe_dim glwe_dim l_gadget : ℕ) : ℕ :=
  input_lwe_dim * (glwe_dim + 1) * (glwe_dim + 1) * l_gadget

/-! ### Twiddle construction (bsk header, lines 33-62) -/

/-- Inner `for (; j & bit; bit >>= 1) j ^= bit; j ^= bit;` of
`cuda_initialize_twiddles`: the flip-lowest-unset-bit step of the
bit-reversed counter.  The C loop terminates because `bit` strictly
decreases; the extra `fuel` argument (always instantiated larger than
`bit`) makes the same recursion structural. -/
def revStepGo : ℕ → ℕ → ℕ → ℕ
  | 0, j, _ => j
  | fuel + 1, j, bit =>
    if bit = 0 then j
    else if j &&& bit ≠ 0 then revStepGo fuel (j ^^^ bit) (bit / 2)
    else j ^^^ bit

/-- One update of `j` in the loop of `cuda_initialize_twiddles`, starting
from `bit = (polynomial_size / 2) >> 1`.  `half` denotes
`polynomial_size / 2`. -/
def revStep (half j : ℕ) : ℕ :=
  revStepGo half j (half / 2)

/-- The bit-reversed counter: value of `j` when the loop index reaches `i`
(the loop walks `i` from 1 with `j` starting at 0 and updated by `revStep`
at the top of each iteration). -/
def bitrev (half i : ℕ) : ℕ :=
  (revStep half)^[i] 0

/-- State of the `cuda_initialize_twiddles` loop: the bit-reversed counter
`j`, the write cursor `cnt`, and the two host-side swap tables. -/
structure TwiddleState where
  j : ℕ
  cnt : ℕ
  sw1 : List ℕ
  sw2 : List ℕ
deriving DecidableEq

/-- One iteration of the `cuda_initialize_twiddles` loop at index `i`:
advance `j`, and record the swap pair `(i, j)` at position `cnt` when
`i < j`. -/
def twiddleStep (half : ℕ) (s : TwiddleState) (i : ℕ) : TwiddleState :=
  let j' := revStep half s.j
  if i < j' then ⟨j', s.cnt + 1, s.sw1.set s.cnt i, s.sw2.set s.cnt j'⟩
  else ⟨j', s.cnt, s.sw1, s.sw2⟩

/-- `cuda_initialize_twiddles` (bsk header, lines 33-62), host side: builds
the two `polynomial_size / 2`-entry swap tables `sw1_h`, `sw2_h` (zeroed by
`memset`, then filled by the loop `for (i = 1, j = 0; i < half; i++)`)
that are uploaded to the device constant symbols `SW1`, `SW2`. -/
def cuda_init_twiddles (polynomial_size : ℕ) : TwiddleState :=
  (List.range' 1 (polynomial_size / 2 - 1)).foldl
    (twiddleStep (polynomial_size / 2))
    ⟨0, 0, List.replicate (polynomial_size / 2) 0,
      List.replicate (polynomial_size / 2) 0⟩

/-- The qualifying loop indexes: `i` in `1 .. half-1` with `i` strictly
below its bit-reversed counterpart (exactly those recorded by the loop). -/
def twiddlePairs (half : ℕ) : List ℕ :=
  (List.range' 1 (half - 1)).filter (fun i => i < bitrev half i)

/-- Qualifying loop indexes among the first `m` iterations (`i` in
`1 .. m`); `twiddlePairs half = twiddlePairsUpTo half (half - 1)`. -/
def twiddlePairsUpTo (half m : ℕ) : List ℕ :=
  (List.range' 1 m).filter (fun i => i < bitrev half i)

/-! ### Bootstrapping-key conversion (bsk header, lines 64-155) -/

/-- The value stored into `h_bsk[i * N/2 + j]` by the packing loop of
`cuda_convert_lwe_bootstrap_key` (bsk header, lines 92-105): real part
`src[i*N + 2j]`, imaginary part `src[i*N + 2j + 1]`, each divided by
`numeric_limits<T>::max()` (`Tmax`).  `double` arithmetic is modelled
exactly over `ℚ`; `src` coefficients are the signed torus values. -/
def bskPackValue (src : ℕ → ℤ) (Tmax : ℚ) (N i j : ℕ) : ℚ × ℚ :=
  (((src (i * N + 2 * j) : ℤ) : ℚ) / Tmax,
   ((src (i * N + 2 * j + 1) : ℤ) : ℚ) / Tmax)

/-- Inner packing loop (`for j`) for polynomial `i`: writes the `N / 2`
complex pairs of polynomial `i` into the buffer. -/
def bskPackInner (src : ℕ → ℤ) (Tmax : ℚ) (N i : ℕ) (buf : ℕ → ℚ × ℚ) :
    ℕ → ℚ × ℚ :=
  (List.range (N / 2)).foldl
    (fun b j => Function.update b (i * N / 2 + j) (bskPackValue src Tmax N i j))
    buf

/-- Full packing loop (`for i` over all polynomials) of
`cuda_convert_lwe_bootstrap_key`; `h0` is the initial (`malloc`ed,
uninitialized) contents of `h_bsk`. -/
def cuda_convert_pack (src : ℕ → ℤ) (Tmax : ℚ) (N total : ℕ)
    (h0 : ℕ → ℚ × ℚ) : ℕ → ℚ × ℚ :=
  (List.range total).foldl (fun buf i => bskPackInner src Tmax N i buf) h0

/-- The polynomial degrees with a `batch_NSMFFT` instantiation in the
`switch` of `cuda_convert_lwe_bootstrap_key` (bsk header, lines 110-134). -/
def supported_polynomial_degrees : List ℕ :=
  [512, 1024, 2048, 4096, 8192]

/-- Result of the key conversion.  The C function returns `void`: there is
no error channel at all, so the result records only the final contents of
the destination buffer, whether an FFT kernel was dispatched, and (for the
packing claim) the packed host buffer `h_bsk`. -/
structure ConvertResult where
  dest : ℕ → ℚ × ℚ
  fftDispatched : Bool
  h_bsk : ℕ → ℚ × ℚ

/-- `cuda_convert_lwe_bootstrap_key` (bsk header, lines 64-139): packs and
rescales the key into `h_bsk`, then dispatches `batch_NSMFFT` writing
`dest` when `polynomial_size` is one of the five `switch` cases; the
`default` case does nothing (`dest` untouched, no FFT, no error code).
`batchNSMFFT` abstracts the (not shown) FFT kernel, indexed by degree. -/
def cuda_convert_lwe_bootstrap_key
    (batchNSMFFT : ℕ → (ℕ → ℚ × ℚ) → (ℕ → ℚ × ℚ))
    (dest : ℕ → ℚ × ℚ) (src : ℕ → ℤ) (Tmax : ℚ) (h0 : ℕ → ℚ × ℚ)
    (input_lwe_dim glwe_dim l_gadget polynomial_size : ℕ) : ConvertResult :=
  let total := totalPolynomials input_lwe_dim glwe_dim l_gadget
  let h_bsk := cuda_convert_pack src Tmax polynomial_size total h0
  if polynomial_size = 512 then ⟨batchNSMFFT 512 h_bsk, true, h_bsk⟩
  else if polynomial_size = 1024 then ⟨batchNSMFFT 1024 h_bsk, true, h_bsk⟩
  else if polynomial_size = 2048 then ⟨batchNSMFFT 2048 h_bsk, true, h_bsk⟩
  else if polynomial_size = 4096 then ⟨batchNSMFFT 4096 h_bsk, true, h_bsk⟩
  else if polynomial_size = 8192 then ⟨batchNSMFFT 8192 h_bsk, true, h_bsk⟩
  else ⟨dest, false, h_bsk⟩

/-- `cuda_convert_lwe_bootstrap_key_32` (bsk header, lines 141-147):
`T = uint32_t`, so the divisor is `numeric_limits<uint32_t>::max()
= 2^32 - 1`. -/
def cuda_convert_lwe_bootstrap_key_32
    (batchNSMFFT : ℕ → (ℕ → ℚ × ℚ) → (ℕ → ℚ × ℚ))
    (dest : ℕ → ℚ × ℚ) (src : ℕ → ℤ) (h0 : ℕ → ℚ × ℚ)
    (input_lwe_dim glwe_dim l_gadget polynomial_size : ℕ) : ConvertResult :=
  cuda_convert_lwe_bootstrap_key batchNSMFFT dest src ((2 : ℚ) ^ 32 - 1) h0
    input_lwe_dim glwe_dim l_gadget polynomial_size

/-- `cuda_convert_lwe_bootstrap_key_64` (bsk header, lines 149-155):
`T = uint64_t`, divisor `numeric_limits<uint64_t>::max() = 2^64 - 1`. -/
def cuda_convert_lwe_bootstrap_key_64
    (batchNSMFFT : ℕ → (ℕ → ℚ × ℚ) → (ℕ → ℚ × ℚ))
    (dest : ℕ → ℚ × ℚ) (src : ℕ → ℤ) (h0 : ℕ → ℚ × ℚ)
    (input_lwe_dim glwe_dim l_gadget polynomial_size : ℕ) : ConvertResult :=
  cuda_convert_lwe_bootstrap_key batchNSMFFT dest src ((2 : ℚ) ^ 64 - 1) h0
    input_lwe_dim glwe_dim l_gadget polynomial_size

/-! ### The amortized bootstrap kernel (`device_bootstrap_amortized`)

The kernel's polynomial subroutines (rotation, rounding, gadget
decomposition, FFTs, sample extraction) live in headers that are not part
of the shown sources; the kernel is therefore embedded generically over a
record of those primitives.  `α` is the torus coefficient type, `γ` the
`double2` complex type; a polynomial / fourier buffer is a function from
coefficient index. -/

/-- The polynomial and FFT primitives called by
`device_bootstrap_amortized`, one field per device subroutine, with the
buffer-transforming signature the kernel uses them at. -/
structure BootstrapPrims (α γ : Type) where
  zeroC : γ
  rescale_torus_element : α → ℕ → ℕ
  divide_by_monomial_negacyclic : (ℕ → α) → ℕ → (ℕ → α)
  multiply_by_monomial_negacyclic_and_sub : (ℕ → α) → ℕ → (ℕ → α)
  round_to_closest_multiple : (ℕ → α) → ℕ → ℕ → (ℕ → α)
  decompose_one_level : ℕ → ℕ → (ℕ → α) → ℕ → (ℕ → ℤ)
  real_to_complex_compressed : (ℕ → ℤ) → (ℕ → γ)
  nsmfft_direct : (ℕ → γ) → (ℕ → γ)
  correction_direct_fft : (ℕ → γ) → (ℕ → γ)
  polynomial_product_accumulate : (ℕ → γ) → (ℕ → γ) → (ℕ → γ) → (ℕ → γ)
  correction_inverse_fft : (ℕ → γ) → (ℕ → γ)
  nsmfft_inverse : (ℕ → γ) → (ℕ → γ)
  add_to_torus : (ℕ → γ) → (ℕ → α) → (ℕ → α)
  sample_extract_mask : (ℕ → α) → (ℕ → α)
  sample_extract_body : (ℕ → α) → α

/-- The GLWE accumulator carried across blind-rotation iterations. -/
structure AccState (α : Type) where
  mask : ℕ → α
  body : ℕ → α

/-- View of the key buffer starting at a block offset (the source forms
the pointer `&bootstrapping_key[offset]`). -/
def bskSlice {γ : Type} (bsk : ℕ → γ) (offset : ℕ) : ℕ → γ :=
  fun t => bsk (offset + t)

/-- Body of the `decomp_level` loop (device.cu kernel, lines 363-435):
decompose one digit of the rotated mask and body, forward-FFT each, and
accumulate the four products against the `(iteration, k, decomp_level)`
key blocks (the kernel passes `glwe_dimension = 1`) into the two running
fourier sums. -/
def bootstrapLevelStep {α γ : Type} (P : BootstrapPrims α γ) (bsk : ℕ → γ)
    (N base_log l_gadget iteration : ℕ) (rotM rotB : ℕ → α)
    (res : (ℕ → γ) × (ℕ → γ)) (decomp_level : ℕ) : (ℕ → γ) × (ℕ → γ) :=
  let decM := P.decompose_one_level base_log l_gadget rotM decomp_level
  let decB := P.decompose_one_level base_log l_gadget rotB decomp_level
  let fftM := P.correction_direct_fft (P.nsmfft_direct (P.real_to_complex_compressed decM))
  let bskM0 := bskSlice bsk (get_ith_mask_kth_block iteration 0 decomp_level N 1 l_gadget)
  let bskB0 := bskSlice bsk (get_ith_body_kth_block iteration 0 decomp_level N 1 l_gadget)
  let resM1 := P.polynomial_product_accumulate res.1 fftM bskM0
  let resB1 := P.polynomial_product_accumulate res.2 fftM bskB0
  let fftB := P.correction_direct_fft (P.nsmfft_direct (P.real_to_complex_compressed decB))
  let bskM1 := bskSlice bsk (get_ith_mask_kth_block iteration 1 decomp_level N 1 l_gadget)
  let bskB1 := bskSlice bsk (get_ith_body_kth_block iteration 1 decomp_level N 1 l_gadget)
  let resM2 := P.polynomial_product_accumulate resM1 fftB bskM1
  let resB2 := P.polynomial_product_accumulate resB1 fftB bskB1
  (resM2, resB2)

/-- End of one blind-rotation iteration (device.cu kernel, lines 437-487):
bring the two fourier sums back to torus coefficients and add them into
the accumulator.  `FULLSM`/`NOSM` operate on `mask_res_fft`/`body_res_fft`
directly; `PARTSM` (source `PARTIALSM`) first copies each sum into the
shared `accumulator_fft` relay buffer and transforms that. -/
def bootstrapEpilogue {α γ : Type} (P : BootstrapPrims α γ)
    (smd : SharedMemDegree) (resM resB : ℕ → γ) (acc : AccState α) :
    AccState α :=
  match smd with
  | SharedMemDegree.FULLSM =>
    ⟨P.add_to_torus (P.nsmfft_inverse (P.correction_inverse_fft resM)) acc.mask,
     P.add_to_torus (P.nsmfft_inverse (P.correction_inverse_fft resB)) acc.body⟩
  | SharedMemDegree.NOSM =>
    ⟨P.add_to_torus (P.nsmfft_inverse (P.correction_inverse_fft resM)) acc.mask,
     P.add_to_torus (P.nsmfft_inverse (P.correction_inverse_fft resB)) acc.body⟩
  | SharedMemDegree.PARTSM =>
    let fftRelayM := resM
    let fftRelayM' := P.nsmfft_inverse (P.correction_inverse_fft fftRelayM)
    let mask' := P.add_to_torus fftRelayM' acc.mask
    let fftRelayB := resB
    let fftRelayB' := P.nsmfft_inverse (P.correction_inverse_fft fftRelayB)
    let body' := P.add_to_torus fftRelayB' acc.body
    ⟨mask', body'⟩

/-- One iteration of the blind-rotation loop (device.cu kernel, lines
306-488).  Note there is no conditional skip: the source's `if (a_hat ==
0)` block is empty (the `continue` is commented out, lines 315-325), so
the full body below runs for every iteration, including `a_hat = 0`. -/
def bootstrapIteration {α γ : Type} (P : BootstrapPrims α γ)
    (smd : SharedMemDegree) (bsk : ℕ → γ) (N base_log l_gadget : ℕ)
    (block_lwe_in : ℕ → α) (acc : AccState α) (iteration : ℕ) : AccState α :=
  let a_hat := P.rescale_torus_element (block_lwe_in iteration) (2 * N)
  let rotM := P.multiply_by_monomial_negacyclic_and_sub acc.mask a_hat
  let rotB := P.multiply_by_monomial_negacyclic_and_sub acc.body a_hat
  let rotM' := P.round_to_closest_multiple rotM base_log l_gadget
  let rotB' := P.round_to_closest_multiple rotB base_log l_gadget
  let res0 : (ℕ → γ) × (ℕ → γ) := (fun _ => P.zeroC, fun _ => P.zeroC)
  let res := (List.range l_gadget).foldl
    (bootstrapLevelStep P bsk N base_log l_gadget iteration rotM' rotB') res0
  bootstrapEpilogue P smd res.1 res.2 acc

/-- `device_bootstrap_amortized` (device.cu kernel, lines 216-498) for one
block (`blockIdx`): select this block's input ciphertext and test vector,
initialize the accumulator by dividing the LUT by `X^b_hat`, run the
blind-rotation loop over the `lwe_mask_size` mask coefficients, and
sample-extract the output ciphertext `(mask polynomial, body)`. -/
def device_bootstrap_amortized {α γ : Type} (P : BootstrapPrims α γ)
    (smd : SharedMemDegree) (lut_vector : ℕ → α)
    (lut_vector_indexes : ℕ → ℕ) (lwe_in : ℕ → α) (bsk : ℕ → γ)
    (lwe_mask_size N base_log l_gadget lwe_idx blockIdx : ℕ) :
    (ℕ → α) × α :=
  let block_lwe_in : ℕ → α := fun t => lwe_in (blockIdx * (lwe_mask_size + 1) + t)
  let block_lut_vector : ℕ → α :=
    fun t => lut_vector (lut_vector_indexes (lwe_idx + blockIdx) * (N * 2) + t)
  let b_hat := P.rescale_torus_element (block_lwe_in lwe_mask_size) (2 * N)
  let accM0 := P.divide_by_monomial_negacyclic (fun t => block_lut_vector t) b_hat
  let accB0 := P.divide_by_monomial_negacyclic (fun t => block_lut_vector (N + t)) b_hat
  let accFinal := (List.range lwe_mask_size).foldl
    (bootstrapIteration P smd bsk N base_log l_gadget block_lwe_in)
    ⟨accM0, accB0⟩
  (P.sample_extract_mask accFinal.mask, P.sample_extract_body accFinal.body)

/-- Instrumented per-iteration step: the same `bootstrapIteration`, also
appending `(iteration, a_hat)` to an execution trace. -/
def bootstrapIterationTraced {α γ : Type} (P : BootstrapPrims α γ)
    (smd : SharedMemDegree) (bsk : ℕ → γ) (N base_log l_gadget : ℕ)
    (block_lwe_in : ℕ → α) (s : AccState α × List (ℕ × ℕ)) (iteration : ℕ) :
    AccState α × List (ℕ × ℕ) :=
  (bootstrapIteration P smd bsk N base_log l_gadget block_lwe_in s.1 iteration,
   s.2 ++ [(iteration, P.rescale_torus_element (block_lwe_in iteration) (2 * N))])

/-- `device_bootstrap_amortized` instrumented with the list of executed
blind-rotation iterations (iteration index, rescaled rotation amount). -/
def device_bootstrap_amortized_traced {α γ : Type} (P : BootstrapPrims α γ)
    (smd : SharedMemDegree) (lut_vector : ℕ → α)
    (lut_vector_indexes : ℕ → ℕ) (lwe_in : ℕ → α) (bsk : ℕ → γ)
    (lwe_mask_size N base_log l_gadget lwe_idx blockIdx : ℕ) :
    ((ℕ → α) × α) × List (ℕ × ℕ) :=
  let block_lwe_in : ℕ → α := fun t => lwe_in (blockIdx * (lwe_mask_size + 1) + t)
  let block_lut_vector : ℕ → α :=
    fun t => lut_vector (lut_vector_indexes (lwe_idx + blockIdx) * (N * 2) + t)
  let b_hat := P.rescale_torus_element (block_lwe_in lwe_mask_size) (2 * N)
  let accM0 := P.divide_by_monomial_negacyclic (fun t => block_lut_vector t) b_hat
  let accB0 := P.divide_by_monomial_negacyclic (fun t => block_lut_vector (N + t)) b_hat
  let r := (List.range lwe_mask_size).foldl
    (bootstrapIterationTraced P smd bsk N base_log l_gadget block_lwe_in)
    (⟨accM0, accB0⟩, [])
  ((P.sample_extract_mask r.1.mask, P.sample_extract_body r.1.body), r.2)

/-! ### Helper lemmas -/

/-- `SM_PART` never exceeds `SM_FULL` (it is the last summand). -/
theorem SM_PART_le_SM_FULL (st N : ℕ) : SM_PART N ≤ SM_FULL st N :=
  Nat.le_add_left _ _

/-- C division `i * (2 * m) / 2` is exact. -/
theorem mul_two_mul_div_two (i m : ℕ) : i * (2 * m) / 2 = i * m := by
  rw [show i * (2 * m) = 2 * (i * m) by ring]
  omega

/-- A fold of pointwise buffer updates leaves untouched cells unchanged. -/
theorem foldl_update_of_ne {β : Type} (idx : ℕ → ℕ) (v : ℕ → β)
    (l : List ℕ) (f : ℕ → β) (x : ℕ) (hx : ∀ k ∈ l, idx k ≠ x) :
    (l.foldl (fun b k => Function.update b (idx k) (v k)) f) x = f x := by
  induction l generalizing f with
  | nil => rfl
  | cons a t ih =>
    rw [List.foldl_cons, ih _ (fun k hk => hx k (List.mem_cons_of_mem a hk)),
      Function.update_noteq (Ne.symm (hx a (List.mem_cons_self a t)))]

/-- A fold of pointwise buffer updates at pairwise-distinct indexes stores
each written value at its cell. -/
theorem foldl_update_of_mem {β : Type} (idx : ℕ → ℕ) (v : ℕ → β)
    (l : List ℕ) (hl : l.Nodup) (hinj : ∀ a b, idx a = idx b → a = b)
    (f : ℕ → β) (k0 : ℕ) (hk : k0 ∈ l) :
    (l.foldl (fun b k => Function.update b (idx k) (v k)) f) (idx k0) = v k0 := by
  induction l generalizing f with
  | nil => cases hk
  | cons a t ih =>
    rw [List.foldl_cons]
    rcases List.mem_cons.1 hk with rfl | hk0
    · have hnot : ∀ k ∈ t, idx k ≠ idx k0 := by
        intro k hkt he
        exact (List.nodup_cons.1 hl).1 (hinj k k0 he ▸ hkt)
      rw [foldl_update_of_ne idx v t _ _ hnot, Function.update_same]
    · exact ih (List.nodup_cons.1 hl).2 _ hk0

/-- A fold that additionally appends one record per element to a trace
computes the underlying fold and the map of the record function. -/
theorem foldl_traced {σ τ : Type} (f : σ → ℕ → σ) (g : ℕ → τ)
    (l : List ℕ) (s0 : σ) (tr0 : List τ) :
    (l.foldl (fun p it => (f p.1 it, p.2 ++ [g it])) (s0, tr0)) =
      (l.foldl f s0, tr0 ++ l.map g) := by
  induction l generalizing s0 tr0 with
  | nil => simp
  | cons a t ih => simp [ih, List.append_assoc]

/-! ### Claim theorems -/

/-- Claim C7: `cuda_check_valid_malloc` performs no allocation (it is a
pure function of the queried device state) and returns exactly one of
three results: `InvalidDevice` (`-2`) when the gpu index is at or beyond
the device count, else `OutOfMemory` (`-1`) when the requested size
exceeds the free memory, else ok (`0`). -/
theorem cuda_check_valid_malloc_correct (size gpu_index num_gpus free_mem : ℕ) :
    (cuda_check_valid_malloc size gpu_index num_gpus free_mem = -2 ∨
     cuda_check_valid_malloc size gpu_index num_gpus free_mem = -1 ∨
     cuda_check_valid_malloc size gpu_index num_gpus free_mem = 0) ∧
    (num_gpus ≤ gpu_index →
      cuda_check_valid_malloc size gpu_index num_gpus free_mem = -2) ∧
    (gpu_index < num_gpus → free_mem < size →
      cuda_check_valid_malloc size gpu_index num_gpus free_mem = -1) ∧
    (gpu_index < num_gpus → size ≤ free_mem →
      cuda_check_valid_malloc size gpu_index num_gpus free_mem = 0) := by
  unfold cuda_check_valid_malloc
  refine ⟨?_, fun h => ?_, fun h1 h2 => ?_, fun h1 h2 => ?_⟩ <;>
    split_ifs <;> omega

/-- Witness for C7: the three outcomes at concrete inputs. -/
theorem cuda_check_valid_malloc_correct_witness :
    cuda_check_valid_malloc 10 0 1 4 = -1 ∧
    cuda_check_valid_malloc 4 0 1 10 = 0 ∧
    cuda_check_valid_malloc 4 5 1 10 = -2 :=
  ⟨(cuda_check_valid_malloc_correct 10 0 1 4).2.2.1 (by decide) (by decide),
   (cuda_check_valid_malloc_correct 4 0 1 10).2.2.2 (by decide) (by decide),
   (cuda_check_valid_malloc_correct 4 5 1 10).2.1 (by decide)⟩

/-- Claim C6 counterexample: a destination pointer whose recorded device
(`1`) differs from the expected device (`0`) but whose memory kind is
device memory is accepted by the source (`&&` in the check), whereas the
claim's disjunctive reading demands `InvalidPointer` (`-1`). -/
theorem cuda_memcpy_invalid_pointer_counterexample :
    cuda_memcpy_async_to_gpu 1 0 2 ⟨1, CudaMemoryType.device⟩ = 0 ∧
    cuda_memcpy_async_to_cpu 1 0 2 ⟨1, CudaMemoryType.device⟩ = 0 ∧
    memcpy_async_status_claimed 1 0 2 ⟨1, CudaMemoryType.device⟩ = -1 := by
  decide

/-- Claim C6 (amended): both async copies return `ZeroSizeCopy` (`-3`) for
size 0; else `InvalidDevice` (`-2`) for an out-of-range device index; else
`InvalidPointer` (`-1`) exactly when the pointer's recorded device differs
from the expected device AND its memory kind is not device memory; a
pointer matching either attribute is accepted and the copy is enqueued
(`0`). -/
theorem cuda_memcpy_async_amended (size gpu_index num_gpus : ℕ)
    (attr : CudaPointerAttributes) :
    (size = 0 →
      cuda_memcpy_async_to_gpu size gpu_index num_gpus attr = -3 ∧
      cuda_memcpy_async_to_cpu size gpu_index num_gpus attr = -3) ∧
    (size ≠ 0 → num_gpus ≤ gpu_index →
      cuda_memcpy_async_to_gpu size gpu_index num_gpus attr = -2 ∧
      cuda_memcpy_async_to_cpu size gpu_index num_gpus attr = -2) ∧
    (size ≠ 0 → gpu_index < num_gpus →
      attr.device ≠ (gpu_index : ℤ) → attr.memType ≠ CudaMemoryType.device →
      cuda_memcpy_async_to_gpu size gpu_index num_gpus attr = -1 ∧
      cuda_memcpy_async_to_cpu size gpu_index num_gpus attr = -1) ∧
    (size ≠ 0 → gpu_index < num_gpus →
      (attr.device = (gpu_index : ℤ) ∨ attr.memType = CudaMemoryType.device) →
      cuda_memcpy_async_to_gpu size gpu_index num_gpus attr = 0 ∧
      cuda_memcpy_async_to_cpu size gpu_index num_gpus attr = 0) := by
  unfold cuda_memcpy_async_to_gpu cuda_memcpy_async_to_cpu
  refine ⟨fun h => ?_, fun h1 h2 => ?_, fun h1 h2 h3 h4 => ?_,
    fun h1 h2 h3 => ?_⟩ <;>
    split_ifs <;> first | exact ⟨rfl, rfl⟩ | omega | tauto

/-- Witness for the amended C6: a matching device pointer is accepted. -/
theorem cuda_memcpy_async_amended_witness :
    cuda_memcpy_async_to_gpu 4 0 1 ⟨0, CudaMemoryType.device⟩ = 0 ∧
    cuda_memcpy_async_to_cpu 4 0 1 ⟨0, CudaMemoryType.device⟩ = 0 :=
  (cuda_memcpy_async_amended 4 0 1 ⟨0, CudaMemoryType.device⟩).2.2.2
    (by decide) (by decide) (Or.inl (by decide))

/-- Claim C2: tier selection is the pure function
`host_bootstrap_launch_choice` of the on-chip capacity, the polynomial
degree and the torus width.  `SM_FULL` and `SM_PART` agree with the
claimed footprint formulas; capacity at least `SM_FULL` picks full
residency with no per-sample global scratch; capacity in
`[SM_PART, SM_FULL)` picks the partial tier with `SM_FULL - SM_PART`
per-sample scratch; capacity below `SM_PART` picks the no-residency tier
with `SM_FULL` per-sample scratch. -/
theorem host_bootstrap_tier_selection (st N cap : ℕ) :
    SM_FULL st N = 4 * (st * N) + 2 * 2 * N + 3 * (16 * N / 2) ∧
    SM_PART N = 16 * N / 2 ∧
    (SM_FULL st N ≤ cap →
      host_bootstrap_launch_choice st N cap =
        ⟨SharedMemDegree.FULLSM, SM_FULL st N, 0⟩) ∧
    (SM_PART N ≤ cap → cap < SM_FULL st N →
      host_bootstrap_launch_choice st N cap =
        ⟨SharedMemDegree.PARTSM, SM_PART N, SM_FULL st N - SM_PART N⟩) ∧
    (cap < SM_PART N →
      host_bootstrap_launch_choice st N cap =
        ⟨SharedMemDegree.NOSM, 0, SM_FULL st N⟩) := by
  have hle := SM_PART_le_SM_FULL st N
  refine ⟨?_, rfl, fun h => ?_, fun h1 h2 => ?_, fun h => ?_⟩
  · unfold SM_FULL
    have h8 : 16 * N / 2 = 8 * N := by omega
    rw [h8]
    ring
  · unfold host_bootstrap_launch_choice
    rw [if_neg (by omega), if_neg (by omega)]
  · unfold host_bootstrap_launch_choice
    rw [if_neg (by omega), if_pos (by omega)]
  · unfold host_bootstrap_launch_choice
    rw [if_pos (by omega)]

/-- Witness for C2: all three tiers at `Torus = u64`, `N = 1024`
(`SM_FULL = 61440`, `SM_PART = 8192`). -/
theorem host_bootstrap_tier_selection_witness :
    host_bootstrap_launch_choice 8 1024 100000 =
      ⟨SharedMemDegree.FULLSM, SM_FULL 8 1024, 0⟩ ∧
    host_bootstrap_launch_choice 8 1024 50000 =
      ⟨SharedMemDegree.PARTSM, SM_PART 1024, SM_FULL 8 1024 - SM_PART 1024⟩ ∧
    host_bootstrap_launch_choice 8 1024 4096 =
      ⟨SharedMemDegree.NOSM, 0, SM_FULL 8 1024⟩ :=
  ⟨(host_bootstrap_tier_selection 8 1024 100000).2.2.1 (by decide),
   (host_bootstrap_tier_selection 8 1024 50000).2.2.2.1 (by decide) (by decide),
   (host_bootstrap_tier_selection 8 1024 4096).2.2.2.2 (by decide)⟩

/-- Claim C9 counterexample: `host_bootstrap_amortized` is not
asynchronous — on every branch it issues `cudaStreamSynchronize` before
returning (device.cu line 604); here at a concrete parameter set the
bootstrap entry point's call trace contains a blocking call. -/
theorem host_bootstrap_blocks_counterexample :
    CudaApiCall.streamSynchronize ∈ host_bootstrap_amortized_trace 8 1024 100000 ∧
    (host_bootstrap_amortized_trace 8 1024 100000).any isBlockingCall = true := by
  decide

/-- Claim C9 (amended): the async copy routines enqueue without ever
issuing a blocking call, and `cuda_synchronize_device`'s only blocking
call is the explicit `cudaDeviceSynchronize`; the bootstrap entry point,
however, synchronizes its stream before returning on every tier branch. -/
theorem async_enqueue_amended (st N cap size gpu_index num_gpus : ℕ)
    (attr : CudaPointerAttributes) :
    (cuda_memcpy_async_to_gpu_trace size gpu_index num_gpus attr).all
      (fun c => !(isBlockingCall c)) = true ∧
    (cuda_memcpy_async_to_cpu_trace size gpu_index num_gpus attr).all
      (fun c => !(isBlockingCall c)) = true ∧
    CudaApiCall.streamSynchronize ∈ host_bootstrap_amortized_trace st N cap ∧
    (cuda_synchronize_device_trace gpu_index num_gpus).all
      (fun c => !(isBlockingCall c) ||
        decide (c = CudaApiCall.deviceSynchronize)) = true := by
  unfold cuda_memcpy_async_to_gpu_trace cuda_memcpy_async_to_cpu_trace
    host_bootstrap_amortized_trace cuda_synchronize_device_trace
  refine ⟨?_, ?_, ?_, ?_⟩ <;> split_ifs <;> decide

/-- Claim C4: for an unsupported polynomial degree the key conversion
dispatches no FFT, reports no error (the C function returns `void`; no
status exists to report), and leaves the destination key buffer exactly
as it was — in particular an initially zeroed destination stays zeroed
(unconverted). -/
theorem convert_unsupported_degree_silent_noop
    (batchNSMFFT : ℕ → (ℕ → ℚ × ℚ) → (ℕ → ℚ × ℚ))
    (dest : ℕ → ℚ × ℚ) (src : ℕ → ℤ) (Tmax : ℚ) (h0 : ℕ → ℚ × ℚ)
    (input_lwe_dim glwe_dim l_gadget polynomial_size : ℕ)
    (hN : polynomial_size ∉ supported_polynomial_degrees) :
    (cuda_convert_lwe_bootstrap_key batchNSMFFT dest src Tmax h0
        input_lwe_dim glwe_dim l_gadget polynomial_size).fftDispatched = false ∧
    (cuda_convert_lwe_bootstrap_key batchNSMFFT dest src Tmax h0
        input_lwe_dim glwe_dim l_gadget polynomial_size).dest = dest := by
  simp only [supported_polynomial_degrees, List.mem_cons, List.not_mem_nil,
    or_false, not_or] at hN
  obtain ⟨h1, h2, h3, h4, h5⟩ := hN
  unfold cuda_convert_lwe_bootstrap_key
  rw [if_neg h1, if_neg h2, if_neg h3, if_neg h4, if_neg h5]
  exact ⟨rfl, rfl⟩

/-- Witness for C4: degree 100 is not supported; nothing is dispatched and
the zeroed destination is returned unchanged. -/
theorem convert_unsupported_degree_silent_noop_witness :
    (cuda_convert_lwe_bootstrap_key (fun _ b => b) (fun _ => ((0 : ℚ), (0 : ℚ)))
        (fun _ => (0 : ℤ)) 1 (fun _ => ((0 : ℚ), (0 : ℚ))) 1 1 1 100).fftDispatched
      = false ∧
    (cuda_convert_lwe_bootstrap_key (fun _ b => b) (fun _ => ((0 : ℚ), (0 : ℚ)))
        (fun _ => (0 : ℤ)) 1 (fun _ => ((0 : ℚ), (0 : ℚ))) 1 1 1 100).dest
      = (fun _ => ((0 : ℚ), (0 : ℚ))) :=
  convert_unsupported_degree_silent_noop (fun _ b => b) (fun _ => ((0 : ℚ), (0 : ℚ)))
    (fun _ => (0 : ℤ)) 1 (fun _ => ((0 : ℚ), (0 : ℚ))) 1 1 1 100 (by decide)

/-- The `h_bsk` buffer inside the conversion is the packing fold, on every
branch of the degree `switch`. -/
theorem convert_h_bsk (batchNSMFFT : ℕ → (ℕ → ℚ × ℚ) → (ℕ → ℚ × ℚ))
    (dest : ℕ → ℚ × ℚ) (src : ℕ → ℤ) (Tmax : ℚ) (h0 : ℕ → ℚ × ℚ)
    (input_lwe_dim glwe_dim l_gadget polynomial_size : ℕ) :
    (cuda_convert_lwe_bootstrap_key batchNSMFFT dest src Tmax h0
        input_lwe_dim glwe_dim l_gadget polynomial_size).h_bsk =
      cuda_convert_pack src Tmax polynomial_size
        (totalPolynomials input_lwe_dim glwe_dim l_gadget) h0 := by
  unfold cuda_convert_lwe_bootstrap_key
  split_ifs <;> rfl

/-- The inner packing loop stores the packed value of pair `j0` of
polynomial `i`. -/
theorem bskPackInner_eval (src : ℕ → ℤ) (Tmax : ℚ) (N i : ℕ)
    (buf : ℕ → ℚ × ℚ) (j0 : ℕ) (hj : j0 < N / 2) :
    bskPackInner src Tmax N i buf (i * N / 2 + j0) = bskPackValue src Tmax N i j0 :=
  foldl_update_of_mem (fun j => i * N / 2 + j) (bskPackValue src Tmax N i)
    (List.range (N / 2)) (List.nodup_range _) (fun _ _ h => Nat.add_left_cancel h)
    buf j0 (List.mem_range.2 hj)

/-- The inner packing loop for polynomial `i` leaves all other cells
unchanged. -/
theorem bskPackInner_preserve (src : ℕ → ℤ) (Tmax : ℚ) (N i : ℕ)
    (buf : ℕ → ℚ × ℚ) (x : ℕ) (hx : ∀ j, j < N / 2 → x ≠ i * N / 2 + j) :
    bskPackInner src Tmax N i buf x = buf x :=
  foldl_update_of_ne (fun j => i * N / 2 + j) (bskPackValue src Tmax N i)
    (List.range (N / 2)) buf x
    (fun k hk => Ne.symm (hx k (List.mem_range.1 hk)))

/-- Pointwise value of the full packing loop (`N = 2 * m` even, as all
supported degrees are). -/
theorem cuda_convert_pack_eval (src : ℕ → ℤ) (Tmax : ℚ) (h0 : ℕ → ℚ × ℚ)
    (m : ℕ) : ∀ total i0 j0 : ℕ, i0 < total → j0 < m →
    cuda_convert_pack src Tmax (2 * m) total h0 (i0 * (2 * m) / 2 + j0) =
      bskPackValue src Tmax (2 * m) i0 j0 := by
  intro total
  induction total with
  | zero => intro i0 j0 hi _; omega
  | succ t ih =>
    intro i0 j0 hi hj
    unfold cuda_convert_pack at ih ⊢
    rw [List.range_succ, List.foldl_concat]
    rcases Nat.lt_or_ge i0 t with hlt | hge
    · show bskPackInner src Tmax (2 * m) t _ _ = _
      rw [bskPackInner_preserve]
      · exact ih i0 j0 hlt hj
      · intro j hjj
        have e1 : i0 * (2 * m) / 2 = i0 * m := mul_two_mul_div_two i0 m
        have e2 : t * (2 * m) / 2 = t * m := mul_two_mul_div_two t m
        have e3 : i0 * m + m ≤ t * m := by
          calc i0 * m + m = (i0 + 1) * m := by ring
          _ ≤ t * m := Nat.mul_le_mul_right m (Nat.succ_le_of_lt hlt)
        omega
    · have hit : i0 = t := by omega
      subst hit
      show bskPackInner src Tmax (2 * m) i0 _ _ = _
      exact bskPackInner_eval src Tmax (2 * m) i0 _ j0 (by omega)

/-- Claim C5: the conversion processes all
`input_lwe_dim * (glwe_dim+1)^2 * l_gadget` polynomials in one pass, and
for every polynomial `i` and pair index `j < N/2` the packed buffer holds
real part `src[i*N + 2j]` and imaginary part `src[i*N + 2j + 1]`, each
divided by the maximum representable torus value (`2^32 - 1` for the
32-bit entry point, `2^64 - 1` for the 64-bit one), under the exact
rational model of `double` arithmetic. -/
theorem convert_pack_rescale_correct
    (batchNSMFFT : ℕ → (ℕ → ℚ × ℚ) → (ℕ → ℚ × ℚ))
    (dest : ℕ → ℚ × ℚ) (src : ℕ → ℤ) (h0 : ℕ → ℚ × ℚ)
    (input_lwe_dim glwe_dim l_gadget m N i j : ℕ)
    (hN : N = 2 * m) (hi : i < totalPolynomials input_lwe_dim glwe_dim l_gadget)
    (hj : j < N / 2) :
    totalPolynomials input_lwe_dim glwe_dim l_gadget =
      input_lwe_dim * (glwe_dim + 1) ^ 2 * l_gadget ∧
    (cuda_convert_lwe_bootstrap_key_32 batchNSMFFT dest src h0
        input_lwe_dim glwe_dim l_gadget N).h_bsk (i * N / 2 + j) =
      (((src (i * N + 2 * j) : ℤ) : ℚ) / ((2 : ℚ) ^ 32 - 1),
       ((src (i * N + 2 * j + 1) : ℤ) : ℚ) / ((2 : ℚ) ^ 32 - 1)) ∧
    (cuda_convert_lwe_bootstrap_key_64 batchNSMFFT dest src h0
        input_lwe_dim glwe_dim l_gadget N).h_bsk (i * N / 2 + j) =
      (((src (i * N + 2 * j) : ℤ) : ℚ) / ((2 : ℚ) ^ 64 - 1),
       ((src (i * N + 2 * j + 1) : ℤ) : ℚ) / ((2 : ℚ) ^ 64 - 1)) := by
  subst hN
  refine ⟨by unfold totalPolynomials; ring, ?_, ?_⟩
  · unfold cuda_convert_lwe_bootstrap_key_32
    rw [convert_h_bsk]
    exact cuda_convert_pack_eval src _ h0 m _ i j hi (by omega)
  · unfold cuda_convert_lwe_bootstrap_key_64
    rw [convert_h_bsk]
    exact cuda_convert_pack_eval src _ h0 m _ i j hi (by omega)

/-- Witness for C5: degree 2 (half = 1), one polynomial, `src = id`. -/
theorem convert_pack_rescale_correct_witness :
    (cuda_convert_lwe_bootstrap_key_32 (fun _ b => b) (fun _ => ((0 : ℚ), (0 : ℚ)))
        (fun k => (k : ℤ)) (fun _ => ((0 : ℚ), (0 : ℚ))) 1 0 1 2).h_bsk 0 =
      (0 / ((2 : ℚ) ^ 32 - 1), 1 / ((2 : ℚ) ^ 32 - 1)) := by
  have h := convert_pack_rescale_correct (fun _ b => b) (fun _ => ((0 : ℚ), (0 : ℚ)))
    (fun k => (k : ℤ)) (fun _ => ((0 : ℚ), (0 : ℚ))) 1 0 1 1 2 0 0
    (by decide) (by decide) (by decide)
  simpa using h.2.1

/-- Setting the cell just past a prefix writes into the suffix. -/
theorem set_append_length (A B : List ℕ) (x : ℕ) :
    (A ++ B).set A.length x = A ++ B.set 0 x := by
  induction A with
  | nil => rfl
  | cons a t ih =>
    simp only [List.cons_append, List.length_cons, List.set_cons_succ, ih]

/-- Variant of `set_append_length` taking the index up to an equation. -/
theorem set_append_length' (A B : List ℕ) (k x : ℕ) (hk : k = A.length) :
    (A ++ B).set k x = A ++ B.set 0 x := by
  subst hk
  exact set_append_length A B x

/-- Setting cell 0 of a nonempty zero block. -/
theorem replicate_set_zero (r x : ℕ) (hr : 0 < r) :
    (List.replicate r 0).set 0 x = x :: List.replicate (r - 1) 0 := by
  cases r with
  | zero => omega
  | succ r' => rw [List.replicate_succ, List.set_cons_zero]; rfl

/-- Invariant of the `cuda_initialize_twiddles` loop: after the iterations
`i = 1 .. m`, the counter `j` is `bitrev half m`, `cnt` counts the
qualifying indexes so far, and the two tables hold the recorded values
consecutively from position 0 followed by the untouched zeros. -/
theorem twiddle_fold_eval (half : ℕ) : ∀ m, m ≤ half - 1 →
    (List.range' 1 m).foldl (twiddleStep half)
      ⟨0, 0, List.replicate half 0, List.replicate half 0⟩ =
      ⟨bitrev half m, (twiddlePairsUpTo half m).length,
       twiddlePairsUpTo half m ++
         List.replicate (half - (twiddlePairsUpTo half m).length) 0,
       (twiddlePairsUpTo half m).map (fun i => bitrev half i) ++
         List.replicate (half - (twiddlePairsUpTo half m).length) 0⟩ := by
  intro m
  induction m with
  | zero =>
    intro _
    simp [twiddlePairsUpTo, bitrev]
  | succ m ih =>
    intro hm
    have hm' : m ≤ half - 1 := by omega
    have hlen : (twiddlePairsUpTo half m).length ≤ m :=
      le_trans (List.length_filter_le _ _) (le_of_eq (by simp))
    have hlenlt : (twiddlePairsUpTo half m).length < half := by omega
    have hrev : revStep half (bitrev half m) = bitrev half (m + 1) :=
      (Function.iterate_succ_apply' (revStep half) m 0).symm
    have hx : 1 + 1 * m = m + 1 := by ring
    rw [List.range'_concat, hx, List.foldl_concat, ih hm']
    have hpair : twiddlePairsUpTo half (m + 1) =
        twiddlePairsUpTo half m ++
          (if m + 1 < bitrev half (m + 1) then [m + 1] else []) := by
      unfold twiddlePairsUpTo
      rw [List.range'_concat, hx, List.filter_append]
      congr 1
      simp [List.filter_singleton]
    by_cases hq : m + 1 < bitrev half (m + 1)
    · rw [hpair, if_pos hq]
      simp only [twiddleStep, hrev]
      rw [if_pos hq]
      have hset1 : (twiddlePairsUpTo half m ++
          List.replicate (half - (twiddlePairsUpTo half m).length) 0).set
            (twiddlePairsUpTo half m).length (m + 1) =
          (twiddlePairsUpTo half m ++ [m + 1]) ++
            List.replicate (half - ((twiddlePairsUpTo half m).length + 1)) 0 := by
        rw [set_append_length' _ _ _ _ rfl, replicate_set_zero _ _ (by omega),
          List.append_assoc, List.singleton_append,
          show half - (twiddlePairsUpTo half m).length - 1 =
            half - ((twiddlePairsUpTo half m).length + 1) from by omega]
      have hset2 : ((twiddlePairsUpTo half m).map (fun i => bitrev half i) ++
          List.replicate (half - (twiddlePairsUpTo half m).length) 0).set
            (twiddlePairsUpTo half m).length (bitrev half (m + 1)) =
          ((twiddlePairsUpTo half m ++ [m + 1]).map (fun i => bitrev half i)) ++
            List.replicate (half - ((twiddlePairsUpTo half m).length + 1)) 0 := by
        rw [set_append_length' _ _ _ _ (by simp), replicate_set_zero _ _ (by omega),
          List.map_append]
        simp only [List.map_cons, List.map_nil]
        rw [List.append_assoc, List.singleton_append,
          show half - (twiddlePairsUpTo half m).length - 1 =
            half - ((twiddlePairsUpTo half m).length + 1) from by omega]
      rw [hset1, hset2,
        show (twiddlePairsUpTo half m ++ [m + 1]).length =
          (twiddlePairsUpTo half m).length + 1 from by simp]
    · rw [hpair, if_neg hq]
      simp only [twiddleStep, hrev]
      rw [if_neg hq]
      simp

/-- Claim C8: the twiddle builder's two `N/2`-entry tables list exactly
the swap pairs `(i, bitrev i)` for `i` in `1 .. N/2 - 1` with
`i < bitrev i`, where `bitrev` is the binary-digit-reversal counter of
order `N/2` computed by the flip-lowest-unset-bit recurrence walking `i`
from 1; the pairs are stored consecutively from position 0, all remaining
entries of both tables are zero, and both tables have length `N/2`. -/
theorem cuda_init_twiddles_correct (N : ℕ) :
    (cuda_init_twiddles N).sw1 =
      twiddlePairs (N / 2) ++
        List.replicate (N / 2 - (twiddlePairs (N / 2)).length) 0 ∧
    (cuda_init_twiddles N).sw2 =
      (twiddlePairs (N / 2)).map (fun i => bitrev (N / 2) i) ++
        List.replicate (N / 2 - (twiddlePairs (N / 2)).length) 0 ∧
    (cuda_init_twiddles N).cnt = (twiddlePairs (N / 2)).length ∧
    (cuda_init_twiddles N).sw1.length = N / 2 ∧
    (cuda_init_twiddles N).sw2.length = N / 2 := by
  have key := twiddle_fold_eval (N / 2) (N / 2 - 1) (le_refl _)
  have hlen : (twiddlePairsUpTo (N / 2) (N / 2 - 1)).length ≤ N / 2 := by
    have h1 : (twiddlePairsUpTo (N / 2) (N / 2 - 1)).length ≤
        (List.range' 1 (N / 2 - 1)).length := List.length_filter_le _ _
    have h2 : (List.range' 1 (N / 2 - 1)).length = N / 2 - 1 := by simp
    omega
  unfold cuda_init_twiddles
  rw [key]
  refine ⟨rfl, rfl, rfl, ?_, ?_⟩ <;>
    simp only [List.length_append, List.length_replicate, List.length_map] <;>
    omega

/-- Quotient/remainder uniqueness for the `l * i + level` positional form. -/
theorem mul_add_lt_inj (l i level i' level' : ℕ) (h1 : level < l)
    (h2 : level' < l) (h : l * i + level = l * i' + level') :
    i = i' ∧ level = level' := by
  have hl : 0 < l := Nat.lt_of_le_of_lt (Nat.zero_le _) h1
  have e1 : (l * i + level) / l = i := by
    rw [Nat.mul_add_div hl, Nat.div_eq_of_lt h1, Nat.add_zero]
  have e2 : (l * i' + level') / l = i' := by
    rw [Nat.mul_add_div hl, Nat.div_eq_of_lt h2, Nat.add_zero]
  have hi : i = i' := by rw [← e1, ← e2, h]
  subst hi
  exact ⟨rfl, Nat.add_left_cancel h⟩

/-- The polynomial slot number `4*l*i + 4*level + 2*k + b` determines
`(i, level, k, b)` within the bounds the kernel uses. -/
theorem bsk_slot_inj (l i level k b i' level' k' b' : ℕ)
    (hlev : level < l) (hlev' : level' < l) (hk : k < 2) (hk' : k' < 2)
    (hb : b < 2) (hb' : b' < 2)
    (h : 4 * l * i + 4 * level + 2 * k + b =
      4 * l * i' + 4 * level' + 2 * k' + b') :
    i = i' ∧ level = level' ∧ k = k' ∧ b = b' := by
  have hr : ∀ x : ℕ, 4 * l * x = 4 * (l * x) := fun x => by ring
  rw [hr i, hr i'] at h
  have key : l * i + level = l * i' + level' ∧ k = k' ∧ b = b' := by omega
  obtain ⟨hA, hkk, hbb⟩ := key
  obtain ⟨hii, hll⟩ := mul_add_lt_inj l i level i' level' hlev hlev' hA
  exact ⟨hii, hll, hkk, hbb⟩

/-- Claim C10: with `glwe_dimension = 1` (the value the kernel passes),
the converted key occupies `totalPolynomials n 1 l * N/2
= n * l * (1+1)^2 * N/2` complex values; the mask and body block index
functions return the converter's polynomial offsets `slot * N / 2` with
`slot = 4*l*i + 4*level + 2*k (+ 1 for the body)`; every block of `N/2`
complex values lies inside the buffer; and blocks of distinct
`(i, k, level, mask/body)` are pairwise disjoint (their index ranges are
separated by at least `N/2`). -/
theorem bsk_block_layout (n l N m : ℕ) (hN : N = 2 * m) :
    totalPolynomials n 1 l = n * l * (1 + 1) ^ 2 ∧
    (∀ i k level,
      get_ith_mask_kth_block i k level N 1 l =
        (4 * l * i + 4 * level + 2 * k) * N / 2 ∧
      get_ith_body_kth_block i k level N 1 l =
        (4 * l * i + 4 * level + 2 * k + 1) * N / 2) ∧
    (∀ i k level b, i < n → k < 2 → level < l → b < 2 →
      (4 * l * i + 4 * level + 2 * k + b) * N / 2 + N / 2 ≤
        totalPolynomials n 1 l * N / 2) ∧
    (∀ i k level b i' k' level' b',
      i < n → k < 2 → level < l → b < 2 →
      i' < n → k' < 2 → level' < l → b' < 2 →
      ¬(i = i' ∧ k = k' ∧ level = level' ∧ b = b') →
      (4 * l * i + 4 * level + 2 * k + b) * N / 2 + N / 2 ≤
        (4 * l * i' + 4 * level' + 2 * k' + b') * N / 2 ∨
      (4 * l * i' + 4 * level' + 2 * k' + b') * N / 2 + N / 2 ≤
        (4 * l * i + 4 * level + 2 * k + b) * N / 2) := by
  subst hN
  have h2m : 2 * m / 2 = m := by omega
  refine ⟨by unfold totalPolynomials; ring, ?_, ?_, ?_⟩
  · intro i k level
    constructor
    · unfold get_ith_mask_kth_block get_start_ith_ggsw
      rw [mul_two_mul_div_two i m, mul_two_mul_div_two level m,
        mul_two_mul_div_two k m,
        mul_two_mul_div_two (4 * l * i + 4 * level + 2 * k) m]
      ring
    · unfold get_ith_body_kth_block get_start_ith_ggsw
      rw [mul_two_mul_div_two i m, mul_two_mul_div_two level m,
        mul_two_mul_div_two k m, h2m,
        mul_two_mul_div_two (4 * l * i + 4 * level + 2 * k + 1) m]
      ring
  · intro i k level b hi hk hlev hb
    rw [mul_two_mul_div_two (4 * l * i + 4 * level + 2 * k + b) m, h2m,
      mul_two_mul_div_two (totalPolynomials n 1 l) m]
    have hslot : 4 * l * i + 4 * level + 2 * k + b + 1 ≤ 4 * l * n := by
      have e : 4 * l * (i + 1) = 4 * l * i + 4 * l := by ring
      have h1 : 4 * l * (i + 1) ≤ 4 * l * n :=
        Nat.mul_le_mul_left (4 * l) (by omega)
      omega
    have htot : totalPolynomials n 1 l = 4 * l * n := by
      unfold totalPolynomials; ring
    calc (4 * l * i + 4 * level + 2 * k + b) * m + m
        = (4 * l * i + 4 * level + 2 * k + b + 1) * m := by ring
      _ ≤ (4 * l * n) * m := Nat.mul_le_mul_right m hslot
      _ = totalPolynomials n 1 l * m := by rw [htot]
  · intro i k level b i' k' level' b' hi hk hlev hb hi' hk' hlev' hb' hne
    rw [mul_two_mul_div_two (4 * l * i + 4 * level + 2 * k + b) m, h2m,
      mul_two_mul_div_two (4 * l * i' + 4 * level' + 2 * k' + b') m]
    have hslotne : 4 * l * i + 4 * level + 2 * k + b ≠
        4 * l * i' + 4 * level' + 2 * k' + b' := by
      intro he
      obtain ⟨e1, e2, e3, e4⟩ :=
        bsk_slot_inj l i level k b i' level' k' b' hlev hlev' hk hk' hb hb' he
      exact hne ⟨e1, e3, e2, e4⟩
    rcases Nat.lt_or_ge (4 * l * i + 4 * level + 2 * k + b)
        (4 * l * i' + 4 * level' + 2 * k' + b') with h | h
    · left
      calc (4 * l * i + 4 * level + 2 * k + b) * m + m
          = (4 * l * i + 4 * level + 2 * k + b + 1) * m := by ring
        _ ≤ (4 * l * i' + 4 * level' + 2 * k' + b') * m :=
          Nat.mul_le_mul_right m h
    · right
      have h' : 4 * l * i' + 4 * level' + 2 * k' + b' + 1 ≤
          4 * l * i + 4 * level + 2 * k + b := by omega
      calc (4 * l * i' + 4 * level' + 2 * k' + b') * m + m
          = (4 * l * i' + 4 * level' + 2 * k' + b' + 1) * m := by ring
        _ ≤ (4 * l * i + 4 * level + 2 * k + b) * m :=
          Nat.mul_le_mul_right m h'

/-- Witness for C10 at `n = 2`, `l = 2`, `N = 512`: block offsets, an
in-bounds block, and a disjoint pair. -/
theorem bsk_block_layout_witness :
    get_ith_mask_kth_block 1 1 1 512 1 2 = (4 * 2 * 1 + 4 * 1 + 2 * 1) * 512 / 2 ∧
    (4 * 2 * 1 + 4 * 1 + 2 * 1 + 1) * 512 / 2 + 512 / 2 ≤
      totalPolynomials 2 1 2 * 512 / 2 ∧
    ((4 * 2 * 0 + 4 * 0 + 2 * 0 + 0) * 512 / 2 + 512 / 2 ≤
      (4 * 2 * 0 + 4 * 0 + 2 * 0 + 1) * 512 / 2 ∨
     (4 * 2 * 0 + 4 * 0 + 2 * 0 + 1) * 512 / 2 + 512 / 2 ≤
      (4 * 2 * 0 + 4 * 0 + 2 * 0 + 0) * 512 / 2) :=
  ⟨((bsk_block_layout 2 2 512 256 (by decide)).2.1 1 1 1).1,
   (bsk_block_layout 2 2 512 256 (by decide)).2.2.1 1 1 1 1
     (by decide) (by decide) (by decide) (by decide),
   (bsk_block_layout 2 2 512 256 (by decide)).2.2.2 0 0 0 0 0 0 0 1
     (by decide) (by decide) (by decide) (by decide)
     (by decide) (by decide) (by decide) (by decide) (by decide)⟩

/-- Claim C1: for a fixed input batch, LUT vectors and indexes, converted
key and parameter set, the three shared-memory tiers of
`device_bootstrap_amortized` compute identical output ciphertexts in
every slot of the output batch, for every implementation of the
polynomial/FFT primitives.  At the value level the tiers differ only in
where buffers live (shared versus global memory) and in the partial
tier's relay copies through `accumulator_fft`, which change no computed
value. -/
theorem tier_equivalence {α γ : Type} (P : BootstrapPrims α γ)
    (lut_vector : ℕ → α) (lut_vector_indexes : ℕ → ℕ) (lwe_in : ℕ → α)
    (bsk : ℕ → γ) (lwe_mask_size N base_log l_gadget lwe_idx blockIdx : ℕ) :
    device_bootstrap_amortized P SharedMemDegree.FULLSM lut_vector
        lut_vector_indexes lwe_in bsk lwe_mask_size N base_log l_gadget
        lwe_idx blockIdx =
      device_bootstrap_amortized P SharedMemDegree.PARTSM lut_vector
        lut_vector_indexes lwe_in bsk lwe_mask_size N base_log l_gadget
        lwe_idx blockIdx ∧
    device_bootstrap_amortized P SharedMemDegree.FULLSM lut_vector
        lut_vector_indexes lwe_in bsk lwe_mask_size N base_log l_gadget
        lwe_idx blockIdx =
      device_bootstrap_amortized P SharedMemDegree.NOSM lut_vector
        lut_vector_indexes lwe_in bsk lwe_mask_size N base_log l_gadget
        lwe_idx blockIdx := by
  constructor <;> rfl

/-- The instrumented kernel fold is the plain fold paired with the full
iteration trace. -/
theorem bootstrap_traced_fold_eq {α γ : Type} (P : BootstrapPrims α γ)
    (smd : SharedMemDegree) (bsk : ℕ → γ) (N base_log l_gadget : ℕ)
    (block_lwe_in : ℕ → α) (n : ℕ) (s0 : AccState α) :
    (List.range n).foldl
        (bootstrapIterationTraced P smd bsk N base_log l_gadget block_lwe_in)
        (s0, []) =
      ((List.range n).foldl
          (bootstrapIteration P smd bsk N base_log l_gadget block_lwe_in) s0,
       (List.range n).map
          (fun it => (it, P.rescale_torus_element (block_lwe_in it) (2 * N)))) :=
  foldl_traced (bootstrapIteration P smd bsk N base_log l_gadget block_lwe_in)
    (fun it => (it, P.rescale_torus_element (block_lwe_in it) (2 * N)))
    (List.range n) s0 []

/-- Claim C3: for every input, the blind-rotation loop executes exactly
`lwe_mask_size` iterations — the trace lists every iteration
`0 .. lwe_mask_size - 1` in order together with its rescaled rotation
amount, with no condition on that amount, so an iteration with
`a_hat = 0` is never skipped — and the instrumented kernel computes the
same output as the plain kernel. -/
theorem blind_rotation_full_iterations {α γ : Type} (P : BootstrapPrims α γ)
    (smd : SharedMemDegree) (lut_vector : ℕ → α) (lut_vector_indexes : ℕ → ℕ)
    (lwe_in : ℕ → α) (bsk : ℕ → γ)
    (lwe_mask_size N base_log l_gadget lwe_idx blockIdx : ℕ) :
    (device_bootstrap_amortized_traced P smd lut_vector lut_vector_indexes
        lwe_in bsk lwe_mask_size N base_log l_gadget lwe_idx blockIdx).2 =
      (List.range lwe_mask_size).map
        (fun it => (it, P.rescale_torus_element
          (lwe_in (blockIdx * (lwe_mask_size + 1) + it)) (2 * N))) ∧
    (device_bootstrap_amortized_traced P smd lut_vector lut_vector_indexes
        lwe_in bsk lwe_mask_size N base_log l_gadget lwe_idx blockIdx).2.length =
      lwe_mask_size ∧
    (device_bootstrap_amortized_traced P smd lut_vector lut_vector_indexes
        lwe_in bsk lwe_mask_size N base_log l_gadget lwe_idx blockIdx).1 =
      device_bootstrap_amortized P smd lut_vector lut_vector_indexes
        lwe_in bsk lwe_mask_size N base_log l_gadget lwe_idx blockIdx := by
  unfold device_bootstrap_amortized_traced device_bootstrap_amortized
  simp only [bootstrap_traced_fold_eq, List.length_map, List.length_range]
  exact ⟨trivial, trivial, trivial⟩
